import Mathlib

/-!
Shallow embedding of the gochal2 secure channel layer (src/main.go).

Byte sequences are modelled as `List Nat`. Stateful Go readers and writers
become pure functions over explicit byte lists: an underlying reader is the
list of bytes it will deliver, and an underlying writer is described by the
(count, error) outcome of each Write call made on it. Fallible operations
return an `Option GoErr` alongside their counts, mirroring the Go
`(n int, err error)` convention.

The external library golang.org/x/crypto/nacl/box is modelled in the `box`
namespace by its documented contract: the Curve25519 group action is
abstracted to multiplication on `Nat` (keeping the commutativity the DH
ladder provides), the XSalsa20 stream to a position-dependent xor pad, and
the Poly1305 authenticator to a 16-entry checksum committing to the exact
message and its length — standing in for the guarantee that a ciphertext
opens successfully exactly when it is the sealing of some message under the
same key and nonce, and that modified or truncated ciphertexts fail.
-/

namespace Gochal

/-- Model of the Go error values that appear in main.go: io.EOF,
io.ErrUnexpectedEOF, the fmt.Errorf messages built by secureReader.Read,
secureWriter.Write, Dial and handleConnection, and opaque transport or sink
errors (`other`). `writeWrapped e` models fmt.Errorf with a wrapped cause. -/
inductive GoErr where
  | eof
  | unexpectedEOF
  | readDecryptFailed
  | readNonceLen (n : Nat)
  | writeWrapped (e : GoErr)
  | writeRandShort (n : Nat)
  | writeNonceShort (n : Nat)
  | dialShortRead (n : Nat)
  | dialShortWrite (n : Nat)
  | other (code : Nat)
deriving DecidableEq, Repr

/-- noncesz constant from main.go. -/
def noncesz : Nat := 24

/-- keysz constant from main.go. -/
def keysz : Nat := 32

namespace box

/-- box.Overhead: the Poly1305 tag length. -/
def overhead : Nat := 16

/-- The Curve25519 base point coordinate. -/
def basePoint : Nat := 9

/-- Model of the curve scalar multiplication: abstracted to multiplication
on Nat, which keeps the associativity and commutativity that gives the DH
shared secret its symmetry. -/
def scalarMult (s u : Nat) : Nat := s * u

/-- Scalar multiplication of the base point, i.e. public key derivation. -/
def scalarBaseMult (s : Nat) : Nat := scalarMult s basePoint

/-- Model of the HSalsa20 key derivation applied to the raw shared point:
any function from the shared point to a 32-entry byte list works here. -/
def hsalsaKDF (shared : Nat) : List Nat :=
  (List.range 32).map (fun i => (shared + i) % 256)

/-- Model of box.Precompute(sharedKey, peersPublicKey, privateKey): scalar
multiplication of the peer public point by the local private scalar,
followed by the HSalsa20 KDF. -/
def precompute (peersPublic priv : Nat) : List Nat :=
  hsalsaKDF (scalarMult priv peersPublic)

/-- Model of box.GenerateKey: derives (publicKey, privateKey) from the
random bytes drawn, here summarised by a seed. -/
def generateKey (seed : Nat) : Nat × Nat :=
  (scalarBaseMult seed, seed)

/-- One pad element of the modelled XSalsa20 keystream at position i. -/
def padAt (key nonce : List Nat) (i : Nat) : Nat :=
  (key.sum + 2 * nonce.sum + 3 * i) % 256

/-- Xor of a message with the modelled keystream starting at position i.
Xor is an involution, so the same function both encrypts and decrypts. -/
def xcrypt (key nonce : List Nat) : Nat → List Nat → List Nat
  | _, [] => []
  | i, b :: bs => Nat.xor b (padAt key nonce i) :: xcrypt key nonce (i + 1) bs

/-- Model of the Poly1305 tag: 16 entries committing to the message length
and a checksum of its content. The head being the exact length is what
makes truncated ciphertexts fail to open, mirroring Poly1305 security. -/
def tag (key nonce m : List Nat) : List Nat :=
  m.length :: List.replicate 15 ((m.sum + key.sum + nonce.sum) % 256)

/-- Model of box.SealAfterPrecomputation: tag followed by the encrypted
message, so the ciphertext is overhead + len(m) bytes. -/
def sealAfterPrecomputation (key nonce m : List Nat) : List Nat :=
  tag key nonce m ++ xcrypt key nonce 0 m

/-- Model of box.OpenAfterPrecomputation: fails on ciphertexts shorter than
the tag; otherwise decrypts the body and checks the tag, succeeding exactly
when the input is the sealing of the recovered message. -/
def openAfterPrecomputation (key nonce c : List Nat) : Option (List Nat) :=
  if c.length < overhead then none
  else
    let m := xcrypt key nonce 0 (c.drop overhead)
    if c.take overhead = tag key nonce m then some m else none

theorem xcrypt_length (key nonce : List Nat) (i : Nat) (m : List Nat) :
    (xcrypt key nonce i m).length = m.length := by
  induction m generalizing i with
  | nil => rfl
  | cons b bs ih => simp [xcrypt, ih]

theorem xcrypt_xcrypt (key nonce : List Nat) (i : Nat) (m : List Nat) :
    xcrypt key nonce i (xcrypt key nonce i m) = m := by
  induction m generalizing i with
  | nil => rfl
  | cons b bs ih =>
    simp [xcrypt, ih]
    exact Nat.xor_cancel_right _ _

theorem tag_length (key nonce m : List Nat) : (tag key nonce m).length = 16 := by
  simp [tag]

theorem seal_length (key nonce m : List Nat) :
    (sealAfterPrecomputation key nonce m).length = m.length + overhead := by
  simp [sealAfterPrecomputation, tag_length, xcrypt_length, overhead]
  omega

theorem open_seal (key nonce m : List Nat) :
    openAfterPrecomputation key nonce (sealAfterPrecomputation key nonce m) = some m := by
  have hlen := seal_length key nonce m
  have htag := tag_length key nonce m
  have hov : overhead = 16 := rfl
  unfold openAfterPrecomputation
  rw [if_neg (by omega)]
  have hdrop : (sealAfterPrecomputation key nonce m).drop overhead = xcrypt key nonce 0 m := by
    unfold sealAfterPrecomputation
    exact List.drop_left' (by omega)
  have htake : (sealAfterPrecomputation key nonce m).take overhead = tag key nonce m := by
    unfold sealAfterPrecomputation
    exact List.take_left' (by omega)
  simp only [hdrop, htake, xcrypt_xcrypt]
  simp

/-- A ciphertext truncated strictly inside the encrypted body fails to
open: the recovered shorter message has a different length, so its tag
differs from the transmitted one at the head. -/
theorem open_seal_truncated (key nonce m : List Nat) (j : Nat)
    (hj16 : overhead ≤ j) (hjlt : j < m.length + overhead) :
    openAfterPrecomputation key nonce ((sealAfterPrecomputation key nonce m).take j) = none := by
  have htag := tag_length key nonce m
  have hx := xcrypt_length key nonce 0 m
  have hov : overhead = 16 := rfl
  have htake : (sealAfterPrecomputation key nonce m).take j =
      tag key nonce m ++ (xcrypt key nonce 0 m).take (j - 16) := by
    unfold sealAfterPrecomputation
    rw [List.take_append_eq_append_take, htag, List.take_of_length_le (by omega)]
  have hclen : ((sealAfterPrecomputation key nonce m).take j).length = j := by
    rw [List.length_take, seal_length]
    omega
  unfold openAfterPrecomputation
  rw [if_neg (by omega)]
  have hdrop : ((sealAfterPrecomputation key nonce m).take j).drop overhead =
      (xcrypt key nonce 0 m).take (j - 16) := by
    rw [htake]
    exact List.drop_left' (by omega)
  have htk : ((sealAfterPrecomputation key nonce m).take j).take overhead = tag key nonce m := by
    rw [htake]
    exact List.take_left' (by omega)
  simp only [hdrop, htk]
  rw [if_neg]
  intro hcontra
  have hlenm : (xcrypt key nonce 0 ((xcrypt key nonce 0 m).take (j - 16))).length = j - 16 := by
    rw [xcrypt_length, List.length_take]
    omega
  have : m.length = j - 16 := by
    have := congrArg (fun l => l.headI) hcontra
    simpa [tag, hlenm] using this
  omega

end box

/-- Model of io.ReadFull over a pure byte-list source holding the bytes the
source will ever deliver: it fills all k requested bytes when they are
available; on a clean end of stream with zero bytes it reports io.EOF; and
when it obtains some but fewer than k bytes it reports io.ErrUnexpectedEOF,
exactly the io.ReadFull contract. -/
def readFull (src : List Nat) (k : Nat) : Nat × Option GoErr :=
  if k ≤ src.length then (k, none)
  else if src.length = 0 then (0, some .eof)
  else (src.length, some .unexpectedEOF)

/-- Result of one secureReader.Read call: the returned count, the returned
error, the content of the caller buffer after the call, and the bytes of
the source left unread by the call. -/
structure ReadResult where
  n : Nat
  err : Option GoErr
  buf : List Nat
  rest : List Nat
deriving DecidableEq, Repr

/-- Model of the Go builtin copy(dst, src): copies min(len(dst), len(src))
elements onto the front of dst and returns that count with the updated
dst. -/
def goCopy (dst src : List Nat) : Nat × List Nat :=
  let k := min dst.length src.length
  (k, src.take dst.length ++ dst.drop k)

/-- Translation of secureReader.Read (src/main.go lines 28-57) over a pure
byte-list source. An empty buffer is a no-op. io.ReadFull collects the
24-byte nonce (the n != noncesz branch after a nil error is kept from the
source even though io.ReadFull makes it unreachable). The single underlying
Read call for the ciphertext fills a buffer of len(p) + box.Overhead bytes;
over a list source it delivers min of that capacity and what remains, or
reports io.EOF when nothing remains. The candidate ciphertext is opened
with the precomputed key; failure returns the error without touching the
caller buffer, success copies the plaintext into it via copy. -/
def srRead (key src p : List Nat) : ReadResult :=
  if p.length = 0 then ⟨0, none, p, src⟩
  else
    match readFull src noncesz with
    | (n, some e) => ⟨n, some e, p, src.drop n⟩
    | (n, none) =>
      if n ≠ noncesz then ⟨n, some (.readNonceLen n), p, src.drop n⟩
      else if (src.drop noncesz).length = 0 then ⟨0, some .eof, p, src.drop noncesz⟩
      else
        match box.openAfterPrecomputation key (src.take noncesz)
            ((src.drop noncesz).take (p.length + box.overhead)) with
        | none => ⟨min (p.length + box.overhead) (src.drop noncesz).length,
            some .readDecryptFailed, p, (src.drop noncesz).drop (p.length + box.overhead)⟩
        | some d => ⟨(goCopy p d).1, none, (goCopy p d).2,
            (src.drop noncesz).drop (p.length + box.overhead)⟩

/-- Result of one secureWriter.Write call: the returned count, the returned
error, and the bytes this call appended to the underlying sink. -/
structure WriteResult where
  n : Nat
  err : Option GoErr
  sunk : List Nat
deriving DecidableEq, Repr

/-- Translation of secureWriter.Write (src/main.go lines 73-103). The call
to crypto/rand.Read and the two sink Write calls are modelled by their
outcomes, passed as (count, error) pairs; nonce holds the 24 random bytes
rand produced. Empty input returns (0, nil) at once. A rand error or short
rand fill aborts with a wrapped error. The nonce is written in the clear; a
sink error there is wrapped and returned with the sink count, and a short
nonce write returns count 0 with an error. The sealed ciphertext is then
written; per the source, the returned count is the sink count minus
box.Overhead only when the sink count exceeds box.Overhead, and the sink
error is returned as is. sunk accumulates the prefixes the sink accepted. -/
def swWrite (key nonce : List Nat) (randRes s1 s2 : Nat × Option GoErr)
    (p : List Nat) : WriteResult :=
  if p.length = 0 then ⟨0, none, []⟩
  else
    match randRes with
    | (_, some e) => ⟨0, some (.writeWrapped e), []⟩
    | (rn, none) =>
      if rn ≠ noncesz then ⟨0, some (.writeRandShort rn), []⟩
      else
        match s1 with
        | (n1, some e) => ⟨n1, some (.writeWrapped e), nonce.take n1⟩
        | (n1, none) =>
          if n1 ≠ noncesz then ⟨0, some (.writeNonceShort n1), nonce.take n1⟩
          else
            let encrptd := box.sealAfterPrecomputation key nonce p
            let n2 := s2.1
            let nret := if n2 > box.overhead then n2 - box.overhead else n2
            ⟨nret, s2.2, nonce.take n1 ++ encrptd.take n2⟩

/-- Model of the secureReader struct: the underlying source and the
precomputed shared key. -/
structure secureReader where
  r : List Nat
  key : List Nat
deriving DecidableEq, Repr

/-- Model of the secureWriter struct: the underlying sink identity is
dropped (sink behavior is passed to swWrite per call); the precomputed
shared key is kept. -/
structure secureWriter where
  w : List Nat
  key : List Nat
deriving DecidableEq, Repr

/-- Translation of NewSecureReader (lines 60-64): box.Precompute with the
peer public key and the local private key. -/
def NewSecureReader (r : List Nat) (priv pub : Nat) : secureReader :=
  ⟨r, box.precompute pub priv⟩

/-- Translation of NewSecureWriter (lines 106-110): box.Precompute with the
peer public key and the local private key. -/
def NewSecureWriter (w : List Nat) (priv pub : Nat) : secureWriter :=
  ⟨w, box.precompute pub priv⟩

/-- Translation of the handshake portion of Dial (src/main.go lines
143-183): the outcome of conn.Read of the 32-byte server public key, then
the outcome of conn.Write of the 32-byte client public key, checked in
source order (error first, then count against keysz); ok () stands for the
secureReadWriter that Dial returns on success. -/
def dialHandshake (readRes writeRes : Nat × Option GoErr) : Except GoErr Unit :=
  match readRes with
  | (_, some e) => .error e
  | (n, none) =>
    if n ≠ keysz then .error (.dialShortRead n)
    else
      match writeRes with
      | (_, some e) => .error e
      | (m, none) =>
        if m ≠ keysz then .error (.dialShortWrite m) else .ok ()

/-- Outcome of the handshake portion of handleConnection: whether a
secureReadWriter was constructed and whether the connection ends up
closed (every failure branch calls conn.Close, and the success branch
defers Close on the channel, which closes the connection). -/
structure HandleResult where
  channel : Bool
  closed : Bool
deriving DecidableEq, Repr

/-- Translation of the handshake portion of handleConnection (src/main.go
lines 203-236): the outcome of conn.Write of the server public key, then
the outcome of conn.Read of the client public key, checked in source order;
every failure branch closes the connection and returns without building a
channel. -/
def handleConnection (writeRes readRes : Nat × Option GoErr) : HandleResult :=
  match writeRes with
  | (_, some _) => ⟨false, true⟩
  | (n, none) =>
    if n ≠ keysz then ⟨false, true⟩
    else
      match readRes with
      | (_, some _) => ⟨false, true⟩
      | (m, none) =>
        if m ≠ keysz then ⟨false, true⟩ else ⟨true, true⟩

/-- Model of the key handling in Serve (src/main.go lines 186-201):
box.GenerateKey is called exactly once, before the accept loop, and every
accepted connection is handled by handleConnection with that same pair, so
the server public key sent to the i-th accepted connection does not depend
on i. -/
def servePubForConn (seed : Nat) (_i : Nat) : Nat :=
  (box.generateKey seed).1

theorem length_ne_zero_of_ne_nil {l : List Nat} (h : l ≠ []) : l.length ≠ 0 := by
  intro h0
  exact h (List.length_eq_zero.mp h0)

theorem precompute_comm (a b : Nat) :
    box.precompute (box.scalarBaseMult a) b = box.precompute (box.scalarBaseMult b) a := by
  unfold box.precompute box.scalarBaseMult box.scalarMult
  rw [Nat.mul_left_comm]

theorem readFull_of_le (src : List Nat) (k : Nat) (h : k ≤ src.length) :
    readFull src k = (k, none) := by
  unfold readFull
  rw [if_pos h]

/-- How secureReader.Read consumes one well-formed frame boundary: with a
nonempty buffer, a 24-byte nonce prefix and a nonempty remainder, the call
reduces to opening the first len(p) + overhead remaining bytes. -/
theorem srRead_frame (key nonce ct p : List Nat) (h24 : nonce.length = 24)
    (hp : p ≠ []) (hct : ct ≠ []) :
    srRead key (nonce ++ ct) p =
      match box.openAfterPrecomputation key nonce (ct.take (p.length + box.overhead)) with
      | none => ⟨min (p.length + box.overhead) ct.length, some .readDecryptFailed, p,
          ct.drop (p.length + box.overhead)⟩
      | some d => ⟨(goCopy p d).1, none, (goCopy p d).2,
          ct.drop (p.length + box.overhead)⟩ := by
  have hp0 : p.length ≠ 0 := length_ne_zero_of_ne_nil hp
  have hnz : noncesz = 24 := rfl
  have hrf : readFull (nonce ++ ct) noncesz = (noncesz, none) := by
    apply readFull_of_le
    rw [List.length_append, h24]
    omega
  have htk : (nonce ++ ct).take noncesz = nonce := List.take_left' (by rw [h24, hnz])
  have hdr : (nonce ++ ct).drop noncesz = ct := List.drop_left' (by rw [h24, hnz])
  unfold srRead
  rw [if_neg hp0, hrf]
  dsimp only
  rw [if_neg (by simp), htk, hdr]
  rw [if_neg (length_ne_zero_of_ne_nil hct)]

/-- How secureWriter.Write behaves once the nonce phase succeeded: rand
delivered 24 bytes and the sink accepted the whole nonce; the result is
determined by the sink outcome (n2, e2) on the ciphertext write. -/
theorem swWrite_ciphertext (key nonce : List Nat) (n2 : Nat) (e2 : Option GoErr)
    (p : List Nat) (hp : p ≠ []) :
    swWrite key nonce (noncesz, none) (noncesz, none) (n2, e2) p =
      ⟨if n2 > box.overhead then n2 - box.overhead else n2, e2,
        nonce.take noncesz ++ (box.sealAfterPrecomputation key nonce p).take n2⟩ := by
  have hp0 : p.length ≠ 0 := length_ne_zero_of_ne_nil hp
  unfold swWrite
  rw [if_neg hp0]
  dsimp only
  rw [if_neg (by simp), if_neg (by simp)]

/-- Reading back exactly one frame produced by sealing P under the same key
and nonce: when P fits the caller buffer, the call succeeds with count
len(P), the buffer starts with P, and the source is fully consumed. -/
theorem srRead_roundtrip (key nonce P p : List Nat) (h24 : nonce.length = 24)
    (hP : P ≠ []) (hle : P.length ≤ p.length) :
    srRead key (nonce ++ box.sealAfterPrecomputation key nonce P) p =
      ⟨P.length, none, P ++ p.drop P.length, []⟩ := by
  have hP0 : P.length ≠ 0 := length_ne_zero_of_ne_nil hP
  have hp : p ≠ [] := by
    intro h
    subst h
    simp at hle
    exact hP hle
  have hsl := box.seal_length key nonce P
  have hov : box.overhead = 16 := rfl
  have hct : box.sealAfterPrecomputation key nonce P ≠ [] := by
    intro h
    have := congrArg List.length h
    rw [hsl] at this
    simp at this
    omega
  rw [srRead_frame key nonce _ p h24 hp hct]
  have htk : (box.sealAfterPrecomputation key nonce P).take (p.length + box.overhead) =
      box.sealAfterPrecomputation key nonce P :=
    List.take_of_length_le (by omega)
  rw [htk, box.open_seal]
  dsimp only
  have hdr : (box.sealAfterPrecomputation key nonce P).drop (p.length + box.overhead) = [] :=
    List.drop_eq_nil_of_le (by omega)
  rw [hdr]
  unfold goCopy
  dsimp only
  rw [Nat.min_eq_right hle, List.take_of_length_le hle]

/-- Reading from an exhausted source with a nonempty buffer reports a
clean end of stream: count 0 and io.EOF, with the buffer untouched. -/
theorem srRead_nil (key p : List Nat) (hp : p ≠ []) :
    srRead key [] p = ⟨0, some .eof, p, []⟩ := by
  unfold srRead readFull
  rw [if_neg (length_ne_zero_of_ne_nil hp)]
  simp [noncesz]

/-- Claim C1 counterexample: at the empty plaintext P = [], which the claim
covers since its length fits any buffer, the writer's empty-input no-op
appends nothing to the transport, so the single Read call over the bytes
produced finds a cleanly exhausted source and returns (0, io.EOF) — an
error return, not a nil-error delivery of P. -/
theorem c1_counterexample :
    srRead (NewSecureReader [] 3 (box.scalarBaseMult 2)).key
      (swWrite (NewSecureWriter [] 2 (box.scalarBaseMult 3)).key (List.replicate 24 0)
        (noncesz, none) (noncesz, none) (([] : List Nat).length + box.overhead, none)
        []).sunk [0, 0, 0] =
      ⟨0, some GoErr.eof, [0, 0, 0], []⟩ ∧
    some GoErr.eof ≠ (none : Option GoErr) := by
  decide

/-- Claim C1 amended: round-trip correctness split by emptiness. For every
nonempty plaintext P whose length fits the caller buffer p, a secureReader
keyed with (privB, pubA) reading the bytes a secureWriter keyed with
(privA, pubB) produced for P (fresh 24-byte nonce, fully accepting sink)
returns exactly P from a single Read call: count len(P), nil error, P at
the front of the buffer. For the empty plaintext the writer appends
nothing to the transport, so a single Read returns zero bytes with the
end-of-stream signal io.EOF instead of a nil-error empty delivery. -/
theorem c1_round_trip (privA privB : Nat) (nonce P p : List Nat)
    (h24 : nonce.length = 24) (hle : P.length ≤ p.length) (hp : p ≠ []) :
    (P ≠ [] →
      srRead (NewSecureReader [] privB (box.scalarBaseMult privA)).key
        (swWrite (NewSecureWriter [] privA (box.scalarBaseMult privB)).key nonce
          (noncesz, none) (noncesz, none) (P.length + box.overhead, none) P).sunk p =
        ⟨P.length, none, P ++ p.drop P.length, []⟩) ∧
    (P = [] →
      srRead (NewSecureReader [] privB (box.scalarBaseMult privA)).key
        (swWrite (NewSecureWriter [] privA (box.scalarBaseMult privB)).key nonce
          (noncesz, none) (noncesz, none) (P.length + box.overhead, none) P).sunk p =
        ⟨0, some GoErr.eof, p, []⟩) := by
  have hkey : (NewSecureReader [] privB (box.scalarBaseMult privA)).key =
      (NewSecureWriter [] privA (box.scalarBaseMult privB)).key := precompute_comm privA privB
  constructor
  · intro hP
    rw [swWrite_ciphertext _ _ _ _ P hP]
    have hsl := box.seal_length (NewSecureWriter [] privA (box.scalarBaseMult privB)).key nonce P
    have h1 : nonce.take noncesz = nonce := List.take_of_length_le (by rw [h24]; decide)
    have h2 : (box.sealAfterPrecomputation
          (NewSecureWriter [] privA (box.scalarBaseMult privB)).key nonce P).take
        (P.length + box.overhead) = _ := List.take_of_length_le (le_of_eq hsl)
    show srRead _ (nonce.take noncesz ++ _) p = _
    rw [h1, h2, hkey]
    exact srRead_roundtrip _ nonce P p h24 hP hle
  · intro hP
    subst hP
    exact srRead_nil _ p hp

theorem c1_round_trip_witness :
    (([5, 6] : List Nat) ≠ [] →
      srRead (NewSecureReader [] 3 (box.scalarBaseMult 2)).key
        (swWrite (NewSecureWriter [] 2 (box.scalarBaseMult 3)).key (List.replicate 24 0)
          (noncesz, none) (noncesz, none) (([5, 6] : List Nat).length + box.overhead, none)
          [5, 6]).sunk [0, 0, 0] =
        ⟨([5, 6] : List Nat).length, none,
          [5, 6] ++ ([0, 0, 0] : List Nat).drop ([5, 6] : List Nat).length, []⟩) ∧
    (([5, 6] : List Nat) = [] →
      srRead (NewSecureReader [] 3 (box.scalarBaseMult 2)).key
        (swWrite (NewSecureWriter [] 2 (box.scalarBaseMult 3)).key (List.replicate 24 0)
          (noncesz, none) (noncesz, none) (([5, 6] : List Nat).length + box.overhead, none)
          [5, 6]).sunk [0, 0, 0] =
        ⟨0, some GoErr.eof, [0, 0, 0], []⟩) :=
  c1_round_trip 2 3 (List.replicate 24 0) [5, 6] [0, 0, 0] (by decide) (by decide) (by decide)

/-- Claim C2 counterexample: the server key pair is generated once in Serve
before the accept loop, so two distinct accepted connections (indices 0 and
1) see the same server public key, contradicting the claim that no server
key pair is reused across two different accepted connections. -/
theorem c2_counterexample :
    servePubForConn 1 0 = servePubForConn 1 1 ∧ (0 : Nat) ≠ 1 :=
  ⟨rfl, by decide⟩

/-- Claim C2 amended: Serve generates a single KeyPair when it starts,
before accepting any connection, and reuses it for every accepted
connection, so every connection sees the same server public key. -/
theorem c2_amended (seed i j : Nat) :
    servePubForConn seed i = servePubForConn seed j := rfl

/-- Claim C3 counterexample: the plaintext is 8 bytes (frame 24 bytes); the
sink accepts only 10 of the 24 ciphertext bytes and reports an error. All
10 accepted bytes lie inside the 16-byte authentication tag, so 0
plaintext bytes were delivered, yet Write returns count 10: the returned
count includes authentication-tag overhead bytes, contradicting the claim
that it never does in any outcome. -/
theorem c3_counterexample :
    (swWrite (List.replicate 32 0) (List.replicate 24 5) (noncesz, none) (noncesz, none)
        (10, some (GoErr.other 0)) [1, 2, 3, 4, 5, 6, 7, 8]).n = 10 ∧
    (swWrite (List.replicate 32 0) (List.replicate 24 5) (noncesz, none) (noncesz, none)
        (10, some (GoErr.other 0)) [1, 2, 3, 4, 5, 6, 7, 8]).err = some (GoErr.other 0) ∧
    ¬ ((swWrite (List.replicate 32 0) (List.replicate 24 5) (noncesz, none) (noncesz, none)
        (10, some (GoErr.other 0)) [1, 2, 3, 4, 5, 6, 7, 8]).n ≤ 10 - box.overhead) := by
  decide

/-- Claim C3 amended: with the nonce phase successful, the result of Write
is determined by the sink outcome (n2, e2) on the ciphertext write: the
sink error is propagated as is, and the returned count is n2 minus the
16-byte overhead when n2 exceeds 16 but the raw n2 (which then consists
only of authentication-tag bytes) when n2 is at most 16; in particular, on
success with the sink accepting the whole frame the count is len(p) and
excludes the overhead, but a short ciphertext write with a nil sink error
is reported as success. -/
theorem c3_amended (key nonce : List Nat) (n2 : Nat) (e2 : Option GoErr) (p : List Nat)
    (hp : p ≠ []) (h24 : nonce.length = 24) :
    swWrite key nonce (noncesz, none) (noncesz, none) (n2, e2) p =
      ⟨if n2 > box.overhead then n2 - box.overhead else n2, e2,
        nonce ++ (box.sealAfterPrecomputation key nonce p).take n2⟩ ∧
    (n2 = p.length + box.overhead →
      (swWrite key nonce (noncesz, none) (noncesz, none) (n2, e2) p).n = p.length ∧
      (swWrite key nonce (noncesz, none) (noncesz, none) (n2, e2) p).err = e2) := by
  have h1 : nonce.take noncesz = nonce := List.take_of_length_le (by rw [h24]; decide)
  have heq : swWrite key nonce (noncesz, none) (noncesz, none) (n2, e2) p =
      ⟨if n2 > box.overhead then n2 - box.overhead else n2, e2,
        nonce ++ (box.sealAfterPrecomputation key nonce p).take n2⟩ := by
    rw [swWrite_ciphertext key nonce n2 e2 p hp, h1]
  refine ⟨heq, fun hn => ?_⟩
  rw [heq]
  have hp0 : p.length ≠ 0 := length_ne_zero_of_ne_nil hp
  have hov : box.overhead = 16 := rfl
  constructor
  · show (if n2 > box.overhead then n2 - box.overhead else n2) = p.length
    rw [if_pos (by omega)]
    omega
  · rfl

theorem c3_amended_witness :
    swWrite (List.replicate 32 0) (List.replicate 24 5) (noncesz, none) (noncesz, none)
        (10, some (GoErr.other 0)) [1, 2] =
      ⟨if 10 > box.overhead then 10 - box.overhead else 10, some (GoErr.other 0),
        List.replicate 24 5 ++
          (box.sealAfterPrecomputation (List.replicate 32 0) (List.replicate 24 5)
            [1, 2]).take 10⟩ ∧
    ((10 : Nat) = ([1, 2] : List Nat).length + box.overhead →
      (swWrite (List.replicate 32 0) (List.replicate 24 5) (noncesz, none) (noncesz, none)
          (10, some (GoErr.other 0)) [1, 2]).n = ([1, 2] : List Nat).length ∧
      (swWrite (List.replicate 32 0) (List.replicate 24 5) (noncesz, none) (noncesz, none)
          (10, some (GoErr.other 0)) [1, 2]).err = some (GoErr.other 0)) :=
  c3_amended (List.replicate 32 0) (List.replicate 24 5) 10 (some (GoErr.other 0)) [1, 2]
    (by decide) (by decide)

/-- Claim C4: whenever the nonce was obtained but opening the candidate
ciphertext fails (tag mismatch or truncated ciphertext), Read returns a
non-nil error and the caller buffer is unchanged: no plaintext bytes are
released. -/
theorem c4_decrypt_failure_no_leak (key src p : List Nat) (hp : p ≠ [])
    (h24 : 24 ≤ src.length) (hne : src.drop 24 ≠ [])
    (hopen : box.openAfterPrecomputation key (src.take 24)
        ((src.drop 24).take (p.length + box.overhead)) = none) :
    (srRead key src p).err = some GoErr.readDecryptFailed ∧ (srRead key src p).buf = p := by
  have hfr := srRead_frame key (src.take 24) (src.drop 24) p
    (by rw [List.length_take]; omega) hp hne
  rw [List.take_append_drop] at hfr
  rw [hfr, hopen]
  exact ⟨rfl, rfl⟩

theorem c4_witness :
    (srRead [] (List.replicate 24 0 ++ [1, 2, 3]) [0, 0]).err =
      some GoErr.readDecryptFailed ∧
    (srRead [] (List.replicate 24 0 ++ [1, 2, 3]) [0, 0]).buf = [0, 0] :=
  c4_decrypt_failure_no_leak [] (List.replicate 24 0 ++ [1, 2, 3]) [0, 0]
    (by decide) (by decide) (by decide) (by decide)

/-- Claim C5: handshake exactness. For any outcomes a (first operation:
conn.Read of the server key in Dial, conn.Write of the server key in
handleConnection) and b (second operation), a transfer of fewer than 32
bytes in either operation makes Dial return an error with no channel, and
makes handleConnection close the connection without constructing a
channel. -/
theorem c5_handshake_exactness (a b : Nat × Option GoErr) :
    (a.1 < keysz → dialHandshake a b ≠ .ok ()) ∧
    (b.1 < keysz → dialHandshake a b ≠ .ok ()) ∧
    (a.1 < keysz → handleConnection a b = ⟨false, true⟩) ∧
    (b.1 < keysz → handleConnection a b = ⟨false, true⟩) := by
  obtain ⟨n, e⟩ := a
  obtain ⟨m, f⟩ := b
  refine ⟨?_, ?_, ?_, ?_⟩ <;> intro h <;> dsimp only at h
  · cases e with
    | some x => simp [dialHandshake]
    | none =>
      simp only [dialHandshake]
      rw [if_pos (Nat.ne_of_lt h)]
      simp
  · cases e with
    | some x => simp [dialHandshake]
    | none =>
      simp only [dialHandshake]
      by_cases hn : n = keysz
      · rw [if_neg (not_not_intro hn)]
        cases f with
        | some x => simp
        | none =>
          dsimp only
          rw [if_pos (Nat.ne_of_lt h)]
          simp
      · rw [if_pos hn]
        simp
  · cases e with
    | some x => rfl
    | none =>
      simp only [handleConnection]
      rw [if_pos (Nat.ne_of_lt h)]
  · cases e with
    | some x => rfl
    | none =>
      simp only [handleConnection]
      by_cases hn : n = keysz
      · rw [if_neg (not_not_intro hn)]
        cases f with
        | some x => rfl
        | none =>
          dsimp only
          rw [if_pos (Nat.ne_of_lt h)]
      · rw [if_pos hn]

theorem c5_witness :
    dialHandshake (31, none) (32, none) ≠ Except.ok () ∧
    handleConnection (31, none) (32, none) = ⟨false, true⟩ :=
  ⟨(c5_handshake_exactness (31, none) (32, none)).1 (by decide),
   (c5_handshake_exactness (31, none) (32, none)).2.2.1 (by decide)⟩

/-- Claim C6 counterexample: the incoming frame carries the 3-byte
plaintext [1, 2, 3] but the caller buffer holds 1 byte. The claim predicts
the call copies 1 byte, discards the rest and returns count 1 with no
error; the code instead reads only len(p) + 16 = 17 of the 19 ciphertext
bytes, authentication fails on the truncated ciphertext, and Read returns
an error with nothing copied. -/
theorem c6_counterexample :
    (srRead (List.replicate 32 1)
        (List.replicate 24 0 ++
          box.sealAfterPrecomputation (List.replicate 32 1) (List.replicate 24 0) [1, 2, 3])
        [9]).err = some GoErr.readDecryptFailed ∧
    (srRead (List.replicate 32 1)
        (List.replicate 24 0 ++
          box.sealAfterPrecomputation (List.replicate 32 1) (List.replicate 24 0) [1, 2, 3])
        [9]).buf = [9] ∧
    (srRead (List.replicate 32 1)
        (List.replicate 24 0 ++
          box.sealAfterPrecomputation (List.replicate 32 1) (List.replicate 24 0) [1, 2, 3])
        [9]).n ≠ 1 := by
  decide

/-- Claim C6 amended: when the incoming frame carries a plaintext strictly
larger than the caller buffer, Read consumes only len(p) + 16 ciphertext
bytes, authentication fails on that truncated ciphertext, and the call
returns a decryption error with the caller buffer unchanged; no partial
plaintext is copied and nothing is retained by the reader for a later
call (the unread remainder stays in the source). -/
theorem c6_amended (key nonce P p : List Nat) (h24 : nonce.length = 24)
    (hp : p ≠ []) (hlt : p.length < P.length) :
    (srRead key (nonce ++ box.sealAfterPrecomputation key nonce P) p).err =
      some GoErr.readDecryptFailed ∧
    (srRead key (nonce ++ box.sealAfterPrecomputation key nonce P) p).buf = p := by
  have hsl := box.seal_length key nonce P
  have hov : box.overhead = 16 := rfl
  have hct : box.sealAfterPrecomputation key nonce P ≠ [] := by
    intro h
    have := congrArg List.length h
    rw [hsl] at this
    simp at this
    omega
  rw [srRead_frame key nonce _ p h24 hp hct]
  rw [box.open_seal_truncated key nonce P (p.length + box.overhead) (by omega) (by omega)]
  exact ⟨rfl, rfl⟩

theorem c6_amended_witness :
    (srRead (List.replicate 32 2)
        (List.replicate 24 3 ++
          box.sealAfterPrecomputation (List.replicate 32 2) (List.replicate 24 3) [4, 5, 6])
        [7]).err = some GoErr.readDecryptFailed ∧
    (srRead (List.replicate 32 2)
        (List.replicate 24 3 ++
          box.sealAfterPrecomputation (List.replicate 32 2) (List.replicate 24 3) [4, 5, 6])
        [7]).buf = [7] :=
  c6_amended (List.replicate 32 2) (List.replicate 24 3) [4, 5, 6] [7]
    (by decide) (by decide) (by decide)

/-- Claim C7: end-of-stream distinction. With a nonempty buffer, a source
cleanly exhausted before the nonce begins makes Read return io.EOF with
count 0, while a source delivering more than zero but fewer than 24 nonce
bytes makes Read return io.ErrUnexpectedEOF, an error distinct from the
end-of-stream signal. -/
theorem c7_eof_distinction (key src p : List Nat) (hp : p ≠ []) :
    (src = [] → srRead key src p = ⟨0, some .eof, p, []⟩) ∧
    (src ≠ [] → src.length < 24 →
      srRead key src p = ⟨src.length, some .unexpectedEOF, p, []⟩ ∧
      GoErr.unexpectedEOF ≠ GoErr.eof) := by
  have hp0 : p.length ≠ 0 := length_ne_zero_of_ne_nil hp
  constructor
  · intro h
    subst h
    unfold srRead readFull
    rw [if_neg hp0]
    simp [noncesz]
  · intro hne hlt
    refine ⟨?_, by decide⟩
    have hrf : readFull src noncesz = (src.length, some .unexpectedEOF) := by
      unfold readFull
      rw [if_neg (by simp only [noncesz]; omega), if_neg (length_ne_zero_of_ne_nil hne)]
    unfold srRead
    rw [if_neg hp0, hrf]
    dsimp only
    rw [List.drop_length]

theorem c7_witness :
    (([] : List Nat) = [] → srRead (List.replicate 32 0) [] [0] = ⟨0, some .eof, [0], []⟩) ∧
    (([1, 2] : List Nat) ≠ [] → ([1, 2] : List Nat).length < 24 →
      srRead (List.replicate 32 0) [1, 2] [0] =
        ⟨([1, 2] : List Nat).length, some .unexpectedEOF, [0], []⟩ ∧
      GoErr.unexpectedEOF ≠ GoErr.eof) :=
  ⟨(c7_eof_distinction (List.replicate 32 0) [] [0] (by decide)).1,
   (c7_eof_distinction (List.replicate 32 0) [1, 2] [0] (by decide)).2⟩

/-- Claim C8: key symmetry. For all private scalars the shared key
precomputed from (privA, pubB) equals the one precomputed from (privB,
pubA), where pubX is the public key of privX; hence a secureReader built
with (privB, pubA) and a secureWriter built with (privA, pubB) hold
identical keys. -/
theorem c8_key_symmetry (r w : List Nat) (privA privB : Nat) :
    box.precompute (box.scalarBaseMult privB) privA =
      box.precompute (box.scalarBaseMult privA) privB ∧
    (NewSecureReader r privB (box.scalarBaseMult privA)).key =
      (NewSecureWriter w privA (box.scalarBaseMult privB)).key := by
  refine ⟨precompute_comm privB privA, ?_⟩
  exact precompute_comm privA privB

/-- Claim C9: per-call sink effect of Write. A call with empty plaintext
returns (0, nil) and appends nothing to the sink whatever the rand and
sink outcomes are; a successful call with nonempty plaintext p appends
exactly one frame, the 24-byte nonce followed by the (len(p) + 16)-byte
ciphertext, and nothing else — the bytes appended are a pure function of
this call alone, so nothing is buffered across calls. -/
theorem c9_write_frame_effect (key nonce p : List Nat) (randRes s1 s2 : Nat × Option GoErr)
    (h24 : nonce.length = 24) (hp : p ≠ []) :
    swWrite key nonce randRes s1 s2 [] = ⟨0, none, []⟩ ∧
    swWrite key nonce (noncesz, none) (noncesz, none) (p.length + box.overhead, none) p =
      ⟨p.length, none, nonce ++ box.sealAfterPrecomputation key nonce p⟩ ∧
    (box.sealAfterPrecomputation key nonce p).length = p.length + box.overhead := by
  refine ⟨rfl, ?_, box.seal_length key nonce p⟩
  rw [swWrite_ciphertext key nonce _ _ p hp]
  have hp0 : p.length ≠ 0 := length_ne_zero_of_ne_nil hp
  have hov : box.overhead = 16 := rfl
  have h1 : nonce.take noncesz = nonce := List.take_of_length_le (by rw [h24]; decide)
  have h2 : (box.sealAfterPrecomputation key nonce p).take (p.length + box.overhead) =
      box.sealAfterPrecomputation key nonce p :=
    List.take_of_length_le (le_of_eq (box.seal_length key nonce p))
  rw [if_pos (by omega : p.length + box.overhead > box.overhead), Nat.add_sub_cancel, h1, h2]

theorem c9_witness :
    swWrite (List.replicate 32 0) (List.replicate 24 5) (3, some (GoErr.other 1)) (0, none)
        (0, none) [] = ⟨0, none, []⟩ ∧
    swWrite (List.replicate 32 0) (List.replicate 24 5) (noncesz, none) (noncesz, none)
        (([1] : List Nat).length + box.overhead, none) [1] =
      ⟨([1] : List Nat).length, none,
        List.replicate 24 5 ++
          box.sealAfterPrecomputation (List.replicate 32 0) (List.replicate 24 5) [1]⟩ ∧
    (box.sealAfterPrecomputation (List.replicate 32 0) (List.replicate 24 5) [1]).length =
      ([1] : List Nat).length + box.overhead :=
  c9_write_frame_effect (List.replicate 32 0) (List.replicate 24 5) [1]
    (3, some (GoErr.other 1)) (0, none) (0, none) (by decide) (by decide)

/-- Claim C10 counterexample: with a 1-byte buffer and a source holding
only 20 bytes, the nonce read is short and Read returns the raw count 20
with io.ErrUnexpectedEOF; the returned count exceeds len(p) = 1, so the
claim that every call returns at most len(p) bytes is false on the error
paths. -/
theorem c10_counterexample :
    (srRead (List.replicate 32 0) (List.replicate 20 7) [0]).n = 20 ∧
    ¬ ((srRead (List.replicate 32 0) (List.replicate 20 7) [0]).n ≤
        ([0] : List Nat).length) := by
  decide

/-- Claim C10 amended: on every call that returns a nil error the returned
count is at most len(p), because the candidate ciphertext is read into a
buffer of exactly len(p) + 16 bytes; on error returns the count reports
raw bytes from the underlying reads and can exceed len(p). -/
theorem c10_amended (key src p : List Nat) :
    (srRead key src p).err = none → (srRead key src p).n ≤ p.length := by
  unfold srRead
  split
  · exact fun _ => Nat.zero_le _
  · split
    · intro h
      exact absurd h (by simp)
    · split
      · intro h
        exact absurd h (by simp)
      · split
        · intro h
          exact absurd h (by simp)
        · split
          · intro h
            exact absurd h (by simp)
          · intro _
            exact Nat.min_le_left _ _

theorem c10_amended_witness :
    (srRead (List.replicate 32 0)
        (List.replicate 24 0 ++
          box.sealAfterPrecomputation (List.replicate 32 0) (List.replicate 24 0) [5])
        [0, 0]).n ≤ ([0, 0] : List Nat).length :=
  c10_amended (List.replicate 32 0)
    (List.replicate 24 0 ++
      box.sealAfterPrecomputation (List.replicate 32 0) (List.replicate 24 0) [5])
    [0, 0] (by decide)

end Gochal
